import Mathlib

/-!
Shallow embedding of `src/chang.py` (a git changelog aggregator) and proofs
about its specification claims.

Modelling conventions:
* Python strings are embedded as `List Char` (`Str`); Python string methods
  (`split`, `replace`, `strip`, `join`) are embedded as executable functions
  on `Str` that follow the CPython semantics used by the script.
* Compiled regular expressions are abstracted as their `search` behaviour,
  a Boolean predicate on strings (`RePattern`); the filtering logic of the
  script never inspects anything else about a pattern.
* External `git` invocations are abstracted by their observable result
  (`RunResult`): captured combined output on success, a `CalledProcessError`
  with captured output for a non-zero exit status, or a `TimeoutExpired`.
* Exceptions and `sys.exit` are modelled with explicit outcome values;
  an uncaught exception is kept distinct from `sys.exit(11)` because the
  two terminate the interpreter differently (only the latter prints the
  captured output of the failed command).
-/

namespace Chang

/-- Python strings, embedded as lists of characters. -/
abbrev Str := List Char

/-- Whitespace characters recognised by Python `str.split()` / `str.strip()`. -/
def isWs (c : Char) : Bool :=
  c = ' ' || c = '\t' || c = '\n' || c = '\r' || c = Char.ofNat 11 || c = Char.ofNat 12

/-- Embedding of Python `s.strip()`: remove leading and trailing whitespace. -/
def pyStrip (s : Str) : Str :=
  ((s.dropWhile isWs).reverse.dropWhile isWs).reverse

/-- Embedding of Python `s.split(sep)` for a one-character separator:
split at every occurrence, keeping empty pieces (`"".split(sep) == [""]`). -/
def splitOnChar (sep : Char) : Str → List Str
  | [] => [[]]
  | c :: cs =>
    if c = sep then [] :: splitOnChar sep cs
    else
      match splitOnChar sep cs with
      | [] => [[c]]
      | r :: rs => (c :: r) :: rs

/-- Embedding of Python `s.split()` (no separator): fields are maximal runs
of non-whitespace characters; no empty fields are produced.
`acc` holds the characters of the field currently being read, reversed. -/
def splitWsAux : Str → Str → List Str
  | [], acc => if acc.isEmpty then [] else [acc.reverse]
  | c :: cs, acc =>
    if isWs c then
      if acc.isEmpty then splitWsAux cs [] else acc.reverse :: splitWsAux cs []
    else splitWsAux cs (c :: acc)

/-- Embedding of Python `s.split()` (no separator argument). -/
def splitWs (s : Str) : List Str := splitWsAux s []

/-- Embedding of Python `" ".join(fields)`. -/
def joinSp : List Str → Str
  | [] => []
  | [w] => w
  | w :: ws => w ++ ' ' :: joinSp ws

/-- Fuel-indexed worker for `replaceAll`; the fuel makes the scan structurally
recursive so that it evaluates inside the kernel.  With fuel at least the
length of the string the fuel never runs out. -/
def replaceAllFuel (old new : Str) : Nat → Str → Str
  | _, [] => []
  | 0, s => s
  | fuel + 1, c :: cs =>
    if old ≠ [] ∧ old.isPrefixOf (c :: cs) then
      new ++ replaceAllFuel old new fuel ((c :: cs).drop old.length)
    else c :: replaceAllFuel old new fuel cs

/-- Embedding of Python `s.replace(old, new)` for nonempty `old`: replace
every occurrence of `old`, scanning left to right, non-overlapping. -/
def replaceAll (old new s : Str) : Str := replaceAllFuel old new s.length s

/-- The literal `".git"`. -/
def dotGit : Str := ['.', 'g', 'i', 't']

/-- The last `/`-separated segment of a URL: `repo_url.split('/')[-1]`. -/
def lastSegment (repo_url : Str) : Str := (splitOnChar '/' repo_url).getLastD []

/-- Name derivation performed by `read_repos_from_file`:
`repo_name = repo_url.split('/')[-1]` then
`repo_name = repo_name.replace(".git", "")`. -/
def derive_name (repo_url : Str) : Str := replaceAll dotGit [] (lastSegment repo_url)

/-- A compiled regular expression, abstracted as its `search` behaviour on a
subject string (the only way the script uses a pattern). -/
structure RePattern where
  search : Str → Bool

/-- Embedding of `matches(s, match_list, excl_list)` from `chang.py`:
return `False` as soon as some include pattern fails to match or some
exclude pattern matches; otherwise `True`.  A `None` argument and an empty
list are both falsy in Python and both make the corresponding loop run zero
times, which the `Option.getD [] ` below reproduces exactly. -/
def «matches» (s : Str) (match_list excl_list : Option (List RePattern)) : Bool :=
  if (match_list.getD []).any (fun pattern => !pattern.search s) then false
  else if (excl_list.getD []).any (fun pattern => pattern.search s) then false
  else true

/-- Python truthiness of an optional string: `None` and `""` are falsy. -/
def truthy : Option Str → Bool
  | none => false
  | some s => !s.isEmpty

/-- Embedding of `check_tag_semantics(start_tag, end_tag)`: `true` means the
function raises `TagError`.  The source condition is
`start_tag and not end_tag or end_tag and not start_tag`. -/
def check_tag_semantics (start_tag end_tag : Option Str) : Bool :=
  (truthy start_tag && !truthy end_tag) || (truthy end_tag && !truthy start_tag)

/-- The unbounded history query: `"git log --oneline"`. -/
def gitLogBase : Str := "git log --oneline".toList

/-- The history query built by `scrape_commits`: the range suffix
`start..end` is appended only when `if start and end:` holds. -/
def build_log_cmd (start_tag end_tag : Option Str) : Str :=
  if truthy start_tag && truthy end_tag then
    gitLogBase ++ ' ' :: (start_tag.getD [] ++ '.' :: '.' :: end_tag.getD [])
  else gitLogBase

/-- The `Repo` class: name, url, local path (set by `clone_or_fetch`),
and the commit subjects collected by `scrape_commits`. -/
structure Repo where
  name : Str
  url : Str
  path : Option Str
  commits : List Str
  deriving DecidableEq

/-- Observable result of one `subprocess.run(..., check=True, timeout=100)`
call: captured combined output on exit status zero, `CalledProcessError`
(with return code and captured output) on a non-zero status, or
`TimeoutExpired` when the 100-second ceiling is exceeded. -/
inductive RunResult where
  | success (stdout : Str)
  | calledProcessError (returncode : Nat) (stdout : Str)
  | timeoutExpired
  deriving DecidableEq

/-- State of the target path on disk before a `clone_or_fetch` call. -/
inductive FsEntry where
  | absent
  | file
  | dir
  deriving DecidableEq

/-- Exceptions of the script that can propagate out of a call:
`TagError` from `check_tag_semantics`, `TimeoutExpired` from a timed-out
`subprocess.run` (never caught anywhere in the script), and the error from
`os.chdir` on an unset path. -/
inductive GitExc where
  | tagError
  | timeout (cmd : Str)
  | chdirError
  deriving DecidableEq

/-- The fetch command `git -C path fetch -a`. -/
def fetch_cmd (path : Str) : Str :=
  "git -C ".toList ++ path ++ " fetch -a".toList

/-- The clone command `git clone url path`. -/
def clone_cmd (url path : Str) : Str :=
  "git clone ".toList ++ url ++ " ".toList ++ path

/-- The git command chosen by `clone_or_fetch`: fetch when the target path
exists and is a directory, clone otherwise (a non-directory entry is first
removed, so it behaves like an absent path). -/
def sync_cmd (repo : Repo) (workdir : Str) (entry : FsEntry) : Str :=
  if entry = FsEntry.dir then fetch_cmd (workdir ++ repo.name)
  else clone_cmd repo.url (workdir ++ repo.name)

/-- Outcome of `Repo.clone_or_fetch`: path recorded on success,
`sys.exit(11)` after printing the failing command and its stripped captured
output on `CalledProcessError`, or a propagating `TimeoutExpired`. -/
inductive CloneResult where
  | ok (path : Str)
  | exited (code : Nat) (cmd : Str) (report : Str)
  | raised (e : GitExc)
  deriving DecidableEq

/-- Embedding of `Repo.clone_or_fetch(self, path)`.  The target path is
`path + self.name` (the `os.path.abspath` normalisation is elided: the
claims never depend on path normalisation).  Only `CalledProcessError` is
caught; `TimeoutExpired` propagates. -/
def clone_or_fetch (repo : Repo) (workdir : Str) (entry : FsEntry)
    (res : RunResult) : CloneResult :=
  match res with
  | RunResult.success _ => CloneResult.ok (workdir ++ repo.name)
  | RunResult.calledProcessError _ out =>
    CloneResult.exited 11 (sync_cmd repo workdir entry) (pyStrip out)
  | RunResult.timeoutExpired =>
    CloneResult.raised (GitExc.timeout (sync_cmd repo workdir entry))

/-- Loop body of the scrape parser: append the subject to `acc` when the
subject is nonempty and passes all filters, else keep `acc`. -/
def scrapeKeep (match_list excl_list : Option (List RePattern))
    (acc : List Str) (line : Str) : List Str :=
  let subj := joinSp ((splitWs line).drop 1)
  if subj != [] && «matches» subj match_list excl_list then acc ++ [subj] else acc

/-- The parsing loop of `scrape_commits` over the lines of the stripped
captured output: for each line, drop the first whitespace-delimited field
(the revision identifier), join the rest with single spaces, and keep the
result when it is nonempty and passes the filters. -/
def collectCommits (lines : List Str)
    (match_list excl_list : Option (List RePattern)) : List Str :=
  lines.foldl (scrapeKeep match_list excl_list) []

/-- Observable state after a `Repo.scrape_commits` call: the repository
object (mutated in place by Python), the current working directory of the
process when the call ends, the exception propagating out of the call (if
any), whether the history query was actually invoked, and whether the
`CalledProcessError` diagnostic was printed. -/
structure ScrapeOut where
  repo : Repo
  cwd : Str
  raised : Option GitExc
  queried : Bool
  printedError : Bool
  deriving DecidableEq

/-- Embedding of `Repo.scrape_commits(self, start, end, match_list, excl_list)`.
`cwd0` is the working directory of the process at call time and `pwd` the
module-level `PWD` recorded at program start.  Control flow of the source:
reset `self.commits`; `check_tag_semantics` may raise `TagError` (before any
`os.chdir`); `os.chdir(self.path)`; run the query; `CalledProcessError` is
caught and printed, `TimeoutExpired` propagates; the `finally` block runs
`os.chdir(PWD)` on every path that entered the `try`. -/
def scrape_commits (repo : Repo) (start_tag end_tag : Option Str)
    (match_list excl_list : Option (List RePattern))
    (res : RunResult) (cwd0 pwd : Str) : ScrapeOut :=
  let repo0 : Repo := { repo with commits := [] }
  if check_tag_semantics start_tag end_tag then
    { repo := repo0, cwd := cwd0, raised := some GitExc.tagError,
      queried := false, printedError := false }
  else
    match repo0.path with
    | none =>
      { repo := repo0, cwd := cwd0, raised := some GitExc.chdirError,
        queried := false, printedError := false }
    | some _ =>
      match res with
      | RunResult.timeoutExpired =>
        { repo := repo0, cwd := pwd,
          raised := some (GitExc.timeout (build_log_cmd start_tag end_tag)),
          queried := true, printedError := false }
      | RunResult.calledProcessError _ _ =>
        { repo := repo0, cwd := pwd, raised := none,
          queried := true, printedError := true }
      | RunResult.success out =>
        { repo := { repo0 with
            commits := collectCommits (splitOnChar '\n' (pyStrip out))
              match_list excl_list },
          cwd := pwd, raised := none, queried := true, printedError := false }

/-- The default working directory `"._repos/"`. -/
def WORKDIR : Str := "._repos/".toList

/-- Embedding of `read_repos_from_file`: one URL per stripped line, blank
lines skipped, name derived by `derive_name`; when `restrict` is truthy,
repositories whose derived name is not listed are skipped entirely. -/
def read_repos_from_file (lines : List Str) (restrict : Option (List Str)) :
    List Repo :=
  lines.foldl
    (fun repoq line =>
      let repo_url := pyStrip line
      if repo_url = [] then repoq
      else
        let repo_name := derive_name repo_url
        if (restrict.getD []) ≠ [] ∧ repo_name ∉ restrict.getD [] then repoq
        else repoq ++ [{ name := repo_name, url := repo_url, path := none,
                         commits := [] }])
    []

/-- Per-repository environment of a run: the filesystem state of the target
path and the results of the two git invocations the repository may trigger. -/
structure RepoEnv where
  entry : FsEntry
  syncRes : RunResult
  scrapeRes : RunResult
  deriving DecidableEq

/-- Externally visible work performed by the main loop, in order: a clone or
fetch invocation for a repository, a history query for a repository, and the
diagnostic printed when a history query fails with `CalledProcessError`. -/
inductive Event where
  | sync (name : Str)
  | query (name : Str)
  | errorPrint (name : Str)
  deriving DecidableEq

/-- How the process run ends: normal completion (exit status zero),
`sys.exit` with a code after printing the failing command and its captured
output, or an uncaught exception (non-zero interpreter exit with a
traceback, without the captured-output report). -/
inductive Termination where
  | completed
  | exitedWith (code : Nat) (cmd : Str) (report : Str)
  | raised (e : GitExc)
  deriving DecidableEq

/-- Embedding of the main loop of `chang.py`: for each repository in input
order, `clone_or_fetch` then `scrape_commits`; `sys.exit` or an uncaught
exception stops the loop.  Returns the termination, the ordered event trace,
and the final states of the repository objects reached by the loop. -/
def runLoop (start_tag end_tag : Option Str)
    (match_list excl_list : Option (List RePattern)) (pwd : Str) :
    List (Repo × RepoEnv) → Termination × List Event × List Repo
  | [] => (Termination.completed, [], [])
  | (repo, env) :: rest =>
    match clone_or_fetch repo WORKDIR env.entry env.syncRes with
    | CloneResult.exited code cmd report =>
      (Termination.exitedWith code cmd report, [Event.sync repo.name], [repo])
    | CloneResult.raised e =>
      (Termination.raised e, [Event.sync repo.name], [repo])
    | CloneResult.ok p =>
      let so := scrape_commits { repo with path := some p } start_tag end_tag
        match_list excl_list env.scrapeRes pwd pwd
      match so.raised with
      | some e =>
        (Termination.raised e,
         Event.sync repo.name ::
           (if so.queried then [Event.query repo.name] else []),
         [so.repo])
      | none =>
        let t := runLoop start_tag end_tag match_list excl_list pwd rest
        (t.1,
         Event.sync repo.name :: Event.query repo.name ::
           ((if so.printedError then [Event.errorPrint repo.name] else [])
             ++ t.2.1),
         so.repo :: t.2.2)

/-- Embedding of the whole driver after `read_repos_from_file`: the main
loop, then `dump_changelog`, whose own `check_tag_semantics` call raises
`TagError` when the loop completed without reaching one (possible only for
an empty repository list). -/
def runPipeline (repos : List (Repo × RepoEnv)) (start_tag end_tag : Option Str)
    (match_list excl_list : Option (List RePattern)) (pwd : Str) :
    Termination × List Event × List Repo :=
  let t := runLoop start_tag end_tag match_list excl_list pwd repos
  match t.1 with
  | Termination.completed =>
    if check_tag_semantics start_tag end_tag then
      (Termination.raised GitExc.tagError, t.2.1, t.2.2)
    else t
  | _ => t

/-- True exactly on the `sys.exit` termination, the only way the process
ends that reports the failing command together with its captured combined
output (the `except` handlers print it; an uncaught exception does not). -/
def Termination.reportsOutput : Termination → Bool
  | Termination.exitedWith _ _ _ => true
  | _ => false

/-- Modelled from the claim C4 reading of the spec: the derived name is the
last path segment with a trailing `.git` suffix — and only a trailing one —
stripped. -/
def specNameTrailingOnly (repo_url : Str) : Str :=
  let seg := lastSegment repo_url
  if dotGit.isSuffixOf seg then seg.take (seg.length - dotGit.length) else seg

/-- Modelled from the claim C5 reading of the spec: strip exactly the
leading revision identifier (the first whitespace-delimited field) together
with the whitespace delimiting it, and retain the remainder of the line
verbatim. -/
def specSubject (line : Str) : Str :=
  ((line.dropWhile isWs).dropWhile (fun c => !isWs c)).dropWhile isWs


/-! Helper lemmas about the string embeddings. -/

theorem replaceAllFuel_stable (old new : Str) :
    ∀ (f1 f2 : Nat) (s : Str), s.length ≤ f1 → s.length ≤ f2 →
      replaceAllFuel old new f1 s = replaceAllFuel old new f2 s := by
  intro f1
  induction f1 with
  | zero =>
    intro f2 s h1 _
    have hs : s = [] := List.eq_nil_of_length_eq_zero (Nat.le_zero.mp h1)
    subst hs
    cases f2 <;> rfl
  | succ f ih =>
    intro f2 s h1 h2
    cases s with
    | nil => cases f2 <;> rfl
    | cons c cs =>
      cases f2 with
      | zero => simp at h2
      | succ f2' =>
        simp only [replaceAllFuel]
        have hc1 : cs.length ≤ f := by
          simp only [List.length_cons] at h1; omega
        have hc2 : cs.length ≤ f2' := by
          simp only [List.length_cons] at h2; omega
        by_cases hp : old ≠ [] ∧ old.isPrefixOf (c :: cs)
        · rw [if_pos hp, if_pos hp]
          have hlen : 0 < old.length := List.length_pos.mpr hp.1
          have hd : ((c :: cs).drop old.length).length ≤ f := by
            simp only [List.length_drop, List.length_cons]; omega
          have hd2 : ((c :: cs).drop old.length).length ≤ f2' := by
            simp only [List.length_drop, List.length_cons]; omega
          rw [ih f2' _ hd hd2]
        · rw [if_neg hp, if_neg hp, ih f2' cs hc1 hc2]

theorem replaceAll_cons (old new : Str) (c : Char) (cs : Str) :
    replaceAll old new (c :: cs)
      = if old ≠ [] ∧ old.isPrefixOf (c :: cs) then
          new ++ replaceAll old new ((c :: cs).drop old.length)
        else c :: replaceAll old new cs := by
  unfold replaceAll
  simp only [List.length_cons, replaceAllFuel]
  by_cases hp : old ≠ [] ∧ old.isPrefixOf (c :: cs)
  · rw [if_pos hp, if_pos hp]
    have hlen : 0 < old.length := List.length_pos.mpr hp.1
    rw [replaceAllFuel_stable old new cs.length ((c :: cs).drop old.length).length
      ((c :: cs).drop old.length)
      (by simp only [List.length_drop, List.length_cons]; omega)
      (Nat.le_refl _)]
  · rw [if_neg hp, if_neg hp]

/-- When every occurrence of `old` in `s` is a trailing one — i.e. `old` is
not an infix of `s` minus its last character — replacing `old` by the empty
string is the same as stripping a trailing `old` suffix. -/
theorem replaceAll_trailing_only (old : Str) (hold : old ≠ []) :
    ∀ s : Str, ¬ old <:+: s.dropLast →
      replaceAll old [] s
        = if old.isSuffixOf s then s.take (s.length - old.length) else s := by
  intro s
  induction s with
  | nil =>
    intro _
    have hsf : ¬ List.isSuffixOf old ([] : List Char) = true := by
      simp [List.isSuffixOf_iff_suffix, hold]
    simp only [replaceAll, replaceAllFuel, if_neg hsf]
  | cons c cs ih =>
    intro hnin
    rw [replaceAll_cons]
    by_cases hp : old.isPrefixOf (c :: cs)
    · rw [if_pos ⟨hold, hp⟩]
      obtain ⟨t, ht⟩ := List.isPrefixOf_iff_prefix.mp hp
      cases t with
      | nil =>
        have heq : old = c :: cs := by simpa using ht
        subst heq
        have hsf : List.isSuffixOf (c :: cs) (c :: cs) = true :=
          List.isSuffixOf_iff_suffix.mpr List.suffix_rfl
        simp [List.drop_length, replaceAll, replaceAllFuel, hsf]
      | cons d t' =>
        exact absurd
          (by rw [← ht, List.dropLast_append_cons]
              exact List.IsPrefix.isInfix (List.prefix_append _ _))
          hnin
    · rw [if_neg (fun h => hp h.2)]
      have hnin' : ¬ old <:+: cs.dropLast := by
        intro h
        apply hnin
        cases cs with
        | nil =>
          rw [List.dropLast_nil] at h
          exact absurd (List.infix_nil.mp h) hold
        | cons d ds =>
          rw [List.dropLast_cons_of_ne_nil (List.cons_ne_nil d ds)]
          exact List.infix_cons h
      rw [ih hnin']
      by_cases hsfx : old <:+ cs
      · have h1 : List.isSuffixOf old cs = true :=
          List.isSuffixOf_iff_suffix.mpr hsfx
        have h2 : List.isSuffixOf old (c :: cs) = true :=
          List.isSuffixOf_iff_suffix.mpr (List.suffix_cons_iff.mpr (Or.inr hsfx))
        have hlen : old.length ≤ cs.length := List.IsSuffix.length_le hsfx
        have hsub : (c :: cs).length - old.length
            = (cs.length - old.length) + 1 := by
          simp only [List.length_cons]; omega
        rw [if_pos h1, if_pos h2, hsub, List.take_succ_cons]
      · have h1 : ¬ List.isSuffixOf old cs = true := by
          simp [List.isSuffixOf_iff_suffix, hsfx]
        have h2 : ¬ List.isSuffixOf old (c :: cs) = true := by
          rw [List.isSuffixOf_iff_suffix, List.suffix_cons_iff]
          rintro (heq | h)
          · subst heq
            exact hp (List.isPrefixOf_iff_prefix.mpr List.prefix_rfl)
          · exact hsfx h
        rw [if_neg h1, if_neg h2]

theorem dropWhile_eq_nil_of_all {p : Char → Bool} :
    ∀ f : Str, (∀ c ∈ f, p c = true) → f.dropWhile p = []
  | [], _ => rfl
  | c :: cs, h => by
    rw [List.dropWhile_cons_of_pos (h c (List.mem_cons_self c cs))]
    exact dropWhile_eq_nil_of_all cs (fun x hx => h x (List.mem_cons_of_mem c hx))

/-- Every field produced by `splitWsAux` is nonempty and free of whitespace,
provided the accumulator only holds non-whitespace characters. -/
theorem splitWsAux_fields :
    ∀ (s acc : Str), (∀ c ∈ acc, isWs c = false) →
      ∀ f ∈ splitWsAux s acc, f ≠ [] ∧ ∀ c ∈ f, isWs c = false := by
  intro s
  induction s with
  | nil =>
    intro acc hacc f hf
    cases acc with
    | nil => simp [splitWsAux] at hf
    | cons a as =>
      simp only [splitWsAux, List.isEmpty_cons, List.mem_singleton,
        if_neg Bool.false_ne_true] at hf
      subst hf
      refine ⟨by simp, fun c hc => hacc c (List.mem_reverse.mp hc)⟩
  | cons c cs ih =>
    intro acc hacc f hf
    cases hw : isWs c with
    | true =>
      cases acc with
      | nil =>
        simp only [splitWsAux, hw, if_true, List.isEmpty_nil] at hf
        exact ih [] (by simp) f hf
      | cons a as =>
        simp only [splitWsAux, hw, if_true, List.isEmpty_cons,
          if_neg Bool.false_ne_true, List.mem_cons] at hf
        rcases hf with rfl | hf
        · exact ⟨by simp, fun x hx => hacc x (List.mem_reverse.mp hx)⟩
        · exact ih [] (by simp) f hf
    | false =>
      simp only [splitWsAux, hw, if_neg Bool.false_ne_true] at hf
      refine ih (c :: acc) ?_ f hf
      intro x hx
      rcases List.mem_cons.mp hx with rfl | hx
      · exact hw
      · exact hacc x hx

theorem joinSp_cons₂ (w x : Str) (ws : List Str) :
    joinSp (w :: x :: ws) = w ++ ' ' :: joinSp (x :: ws) := rfl

/-- On a list of nonempty whitespace-free fields, stripping the first
whitespace-delimited field and its delimiter from the single-space join of
the fields leaves exactly the join of the remaining fields. -/
theorem specSubject_joinSp :
    ∀ fs : List Str, (∀ f ∈ fs, f ≠ [] ∧ ∀ c ∈ f, isWs c = false) →
      specSubject (joinSp fs) = joinSp (fs.drop 1) := by
  intro fs h
  match fs with
  | [] => rfl
  | [f] =>
    obtain ⟨hne, hchars⟩ := h f (List.mem_singleton.mpr rfl)
    obtain ⟨c, cs, rfl⟩ := List.exists_cons_of_ne_nil hne
    show specSubject (c :: cs) = []
    unfold specSubject
    rw [List.dropWhile_cons_of_neg
      (by rw [hchars c (List.mem_cons_self c cs)]; exact Bool.false_ne_true)]
    rw [dropWhile_eq_nil_of_all (c :: cs)
      (fun x hx => by rw [hchars x hx]; rfl)]
    rfl
  | f :: g :: t =>
    obtain ⟨hfne, hfchars⟩ := h f (List.mem_cons_self f (g :: t))
    obtain ⟨hgne, hgchars⟩ :=
      h g (List.mem_cons_of_mem f (List.mem_cons_self g t))
    obtain ⟨c, cs, rfl⟩ := List.exists_cons_of_ne_nil hfne
    obtain ⟨d, ds, rfl⟩ := List.exists_cons_of_ne_nil hgne
    have hr : ∃ r : Str, joinSp ((d :: ds) :: t) = d :: r := by
      cases t with
      | nil => exact ⟨ds, rfl⟩
      | cons u us => exact ⟨ds ++ ' ' :: joinSp (u :: us), rfl⟩
    obtain ⟨r, hr⟩ := hr
    rw [joinSp_cons₂]
    unfold specSubject
    rw [List.cons_append, List.dropWhile_cons_of_neg
      (by rw [hfchars c (List.mem_cons_self c cs)]; exact Bool.false_ne_true)]
    rw [← List.cons_append, List.dropWhile_append_of_pos
      (fun x hx => by rw [hfchars x hx]; rfl)]
    rw [List.dropWhile_cons_of_neg (by simp [isWs])]
    rw [List.dropWhile_cons_of_pos (by simp [isWs])]
    rw [hr, List.dropWhile_cons_of_neg
      (by rw [hgchars d (List.mem_cons_self d ds)]; exact Bool.false_ne_true)]
    rw [← hr]
    rfl

/-- The scrape loop over lines is filtering the per-line subjects: order is
preserved and exactly the nonempty, filter-passing subjects are kept. -/
theorem collect_go (match_list excl_list : Option (List RePattern)) :
    ∀ (lines : List Str) (acc : List Str),
      lines.foldl (scrapeKeep match_list excl_list) acc
        = acc ++ (lines.map (fun line => joinSp ((splitWs line).drop 1))).filter
            (fun subj => subj != [] && «matches» subj match_list excl_list) := by
  intro lines
  induction lines with
  | nil => intro acc; simp
  | cons l ls ih =>
    intro acc
    rw [List.foldl_cons, ih]
    simp only [List.map_cons, List.filter_cons, scrapeKeep]
    cases hc : (joinSp ((splitWs l).drop 1) != [] &&
        «matches» (joinSp ((splitWs l).drop 1)) match_list excl_list) <;>
      simp [List.append_assoc]

/-! Claim theorems. -/

/-- C2: for every string `s`, calling `matches` with an empty or absent
include list and an empty or absent exclude list returns true — empty
pattern sets impose no constraint. -/
theorem C2_empty_filters_accept (s : Str)
    (match_list excl_list : Option (List RePattern))
    (hm : match_list = none ∨ match_list = some [])
    (he : excl_list = none ∨ excl_list = some []) :
    «matches» s match_list excl_list = true := by
  rcases hm with rfl | rfl <;> rcases he with rfl | rfl <;> rfl

/-- Witness for C2 at a concrete input. -/
theorem C2_empty_filters_accept_witness :
    ((some [] : Option (List RePattern)) = none ∨
        (some [] : Option (List RePattern)) = some []) ∧
      «matches» "fix: bug".toList (some []) none = true :=
  ⟨Or.inr rfl, C2_empty_filters_accept _ (some []) none (Or.inr rfl) (Or.inl rfl)⟩

/-- C3: if any pattern in the exclude list matches `s`, then `matches`
returns false regardless of the include list. -/
theorem C3_exclude_overrides (s : Str) (match_list : Option (List RePattern))
    (excl : List RePattern) (p : RePattern) (hp : p ∈ excl)
    (hs : p.search s = true) :
    «matches» s match_list (some excl) = false := by
  have hany : excl.any (fun pattern => pattern.search s) = true :=
    List.any_eq_true.mpr ⟨p, hp, hs⟩
  unfold «matches»
  cases h : (match_list.getD []).any (fun pattern => !pattern.search s) <;>
    simp [h, hany]

/-- Witness for C3 at a concrete input. -/
theorem C3_exclude_overrides_witness :
    (RePattern.mk (fun _ => true)) ∈ [RePattern.mk (fun _ => true)] ∧
      «matches» "wip: draft".toList none (some [RePattern.mk (fun _ => true)])
        = false :=
  ⟨List.mem_singleton.mpr rfl,
   C3_exclude_overrides _ none _ _ (List.mem_singleton.mpr rfl) rfl⟩

/-- C6: scraping twice with the same arguments and the same underlying
history result yields the same `commits` contents as scraping once, because
`commits` is reset to `[]` at the start of every invocation. -/
theorem C6_scrape_idempotent (repo : Repo) (start_tag end_tag : Option Str)
    (match_list excl_list : Option (List RePattern)) (res : RunResult)
    (cwd0 pwd : Str) :
    (scrape_commits
        (scrape_commits repo start_tag end_tag match_list excl_list res cwd0
          pwd).repo
        start_tag end_tag match_list excl_list res cwd0 pwd).repo.commits
      = (scrape_commits repo start_tag end_tag match_list excl_list res cwd0
          pwd).repo.commits := by
  cases h : check_tag_semantics start_tag end_tag <;>
    cases hp : repo.path <;> cases res <;> simp [scrape_commits, h, hp]

/-- C9: the chdir into the repository path never leaks past a
`scrape_commits` call.  Whenever the call reaches its history query — tag
check passed, repository path set — the `finally` block restores the
working directory to the `PWD` recorded at program start, for every query
result (success, error, or timeout) and before any exception propagates;
and every invocation entered at `PWD` (as all call sites are) ends at
`PWD` on every control path, including the paths that never chdir. -/
theorem C9_cwd_restored (repo : Repo) (start_tag end_tag : Option Str)
    (match_list excl_list : Option (List RePattern)) (res : RunResult)
    (cwd0 pwd : Str) :
    ((∃ p, repo.path = some p) →
      check_tag_semantics start_tag end_tag = false →
      (scrape_commits repo start_tag end_tag match_list excl_list res cwd0
          pwd).cwd = pwd) ∧
    (cwd0 = pwd →
      (scrape_commits repo start_tag end_tag match_list excl_list res cwd0
          pwd).cwd = pwd) := by
  constructor
  · rintro ⟨p, hp⟩ hck
    cases res <;> simp [scrape_commits, hck, hp]
  · rintro rfl
    cases hck : check_tag_semantics start_tag end_tag <;>
      cases hp : repo.path <;> cases res <;> simp [scrape_commits, hck, hp]

/-- Witness for C9 at a concrete input (a failing query). -/
theorem C9_cwd_restored_witness :
    (∃ p, ({ name := "proj".toList, url := "u".toList,
              path := some "._repos/proj".toList, commits := [] } : Repo).path
        = some p) ∧
      (scrape_commits
          { name := "proj".toList, url := "u".toList,
            path := some "._repos/proj".toList, commits := [] }
          none none none none (RunResult.calledProcessError 128 "err".toList)
          "/home".toList "/home".toList).cwd = "/home".toList :=
  ⟨⟨"._repos/proj".toList, rfl⟩,
   (C9_cwd_restored
       { name := "proj".toList, url := "u".toList,
         path := some "._repos/proj".toList, commits := [] }
       none none none none (RunResult.calledProcessError 128 "err".toList)
       "/home".toList "/home".toList).1
     ⟨"._repos/proj".toList, rfl⟩ rfl⟩

/-- C10: the range-pair validation uses Python truthiness, so an
empty-string bound counts as absent: an empty-string pair raises no error
and the query is built unbounded; an empty-string bound next to a non-empty
bound raises the error; and a bounded query is only ever built from two
truthy (present and non-empty) bounds. -/
theorem C10_empty_string_bounds :
    (check_tag_semantics (some []) (some []) = false ∧
        build_log_cmd (some []) (some []) = gitLogBase) ∧
      (∀ t : Str, t ≠ [] →
        check_tag_semantics (some []) (some t) = true ∧
          check_tag_semantics (some t) (some []) = true) ∧
      (∀ a b : Option Str, build_log_cmd a b ≠ gitLogBase →
        truthy a = true ∧ truthy b = true) := by
  refine ⟨⟨rfl, rfl⟩, ?_, ?_⟩
  · intro t ht
    cases t with
    | nil => exact absurd rfl ht
    | cons c cs => exact ⟨rfl, rfl⟩
  · intro a b h
    by_cases hc : (truthy a && truthy b) = true
    · exact ⟨((Bool.and_eq_true _ _).mp hc).1, ((Bool.and_eq_true _ _).mp hc).2⟩
    · exact absurd (by simp [build_log_cmd, hc]) h

/-- Witness for C10 at concrete inputs. -/
theorem C10_empty_string_bounds_witness :
    (check_tag_semantics (some []) (some "v1".toList) = true ∧
        check_tag_semantics (some "v1".toList) (some []) = true) ∧
      (truthy (some "a".toList) = true ∧ truthy (some "b".toList) = true) :=
  ⟨C10_empty_string_bounds.2.1 "v1".toList (by decide),
   C10_empty_string_bounds.2.2 (some "a".toList) (some "b".toList) (by decide)⟩

/-- C1, counterexample: with `start` given and `end` absent and one
repository in the list, the run is rejected by `TagError` — but only after
a fetch has already been performed for that repository, so the
configuration error is not raised before all synchronization work. -/
theorem C1_counterexample :
    (runPipeline
        [({ name := "proj".toList, url := "u".toList, path := none,
            commits := [] },
          { entry := FsEntry.dir, syncRes := RunResult.success [],
            scrapeRes := RunResult.success [] })]
        (some "v1".toList) none none none "/home".toList).1
      = Termination.raised GitExc.tagError ∧
    Event.sync "proj".toList ∈
      (runPipeline
        [({ name := "proj".toList, url := "u".toList, path := none,
            commits := [] },
          { entry := FsEntry.dir, syncRes := RunResult.success [],
            scrapeRes := RunResult.success [] })]
        (some "v1".toList) none none none "/home".toList).2.1 := by decide

/-- C1, amended: the tag-pair check lives inside `scrape_commits`, so with
exactly one truthy range bound the run is rejected by `TagError` during the
first repository scrape: after that repository was cloned or fetched
(successfully here), but before any history query runs and before any
further repository is synchronized. -/
theorem C1_amended_reject_after_first_sync (repo : Repo) (env : RepoEnv)
    (rest : List (Repo × RepoEnv)) (start_tag end_tag : Option Str)
    (match_list excl_list : Option (List RePattern)) (pwd out : Str)
    (hck : check_tag_semantics start_tag end_tag = true)
    (hsync : env.syncRes = RunResult.success out) :
    runPipeline ((repo, env) :: rest) start_tag end_tag match_list excl_list
        pwd
      = (Termination.raised GitExc.tagError, [Event.sync repo.name],
         [{ repo with path := some (WORKDIR ++ repo.name), commits := [] }]) := by
  simp [runPipeline, runLoop, clone_or_fetch, scrape_commits, hck, hsync]

/-- Witness for the amended C1 at a concrete input. -/
theorem C1_amended_reject_after_first_sync_witness :
    check_tag_semantics (some "v1".toList) none = true ∧
      runPipeline
          [({ name := "proj".toList, url := "u".toList, path := none,
              commits := [] },
            { entry := FsEntry.dir, syncRes := RunResult.success [],
              scrapeRes := RunResult.success [] })]
          (some "v1".toList) none none none "/home".toList
        = (Termination.raised GitExc.tagError, [Event.sync "proj".toList],
           [{ name := "proj".toList, url := "u".toList,
              path := some "._repos/proj".toList, commits := [] }]) :=
  ⟨rfl,
   C1_amended_reject_after_first_sync _ _ [] (some "v1".toList) none none none
     "/home".toList [] rfl rfl⟩

/-- C7, counterexample: when the clone/fetch invocation times out, the run
does abort — but through an uncaught `TimeoutExpired` (only
`CalledProcessError` is caught), so the process does not terminate through
the `sys.exit(11)` path that reports the failing command and its captured
combined output. -/
theorem C7_counterexample :
    (runPipeline
        [({ name := "proj".toList, url := "u".toList, path := none,
            commits := [] },
          { entry := FsEntry.dir, syncRes := RunResult.timeoutExpired,
            scrapeRes := RunResult.success [] })]
        none none none none "/home".toList).1
      = Termination.raised (GitExc.timeout (fetch_cmd "._repos/proj".toList)) ∧
    Termination.reportsOutput
        (runPipeline
          [({ name := "proj".toList, url := "u".toList, path := none,
              commits := [] },
            { entry := FsEntry.dir, syncRes := RunResult.timeoutExpired,
              scrapeRes := RunResult.success [] })]
          none none none none "/home".toList).1 = false := by decide

/-- C7, amended: a failed clone/fetch always aborts the whole run with no
subsequent repository processed; on a non-zero exit status the process
exits with the distinct status 11 after printing the failing command and
its stripped captured output, while on a timeout the uncaught
`TimeoutExpired` propagates (non-zero interpreter exit, no captured-output
report). -/
theorem C7_amended_sync_failure_aborts (repo : Repo) (env : RepoEnv)
    (rest : List (Repo × RepoEnv)) (start_tag end_tag : Option Str)
    (match_list excl_list : Option (List RePattern)) (pwd : Str) :
    (∀ code out, env.syncRes = RunResult.calledProcessError code out →
      runPipeline ((repo, env) :: rest) start_tag end_tag match_list
          excl_list pwd
        = (Termination.exitedWith 11 (sync_cmd repo WORKDIR env.entry)
             (pyStrip out),
           [Event.sync repo.name], [repo])) ∧
    (env.syncRes = RunResult.timeoutExpired →
      runPipeline ((repo, env) :: rest) start_tag end_tag match_list
          excl_list pwd
        = (Termination.raised (GitExc.timeout (sync_cmd repo WORKDIR env.entry)),
           [Event.sync repo.name], [repo])) := by
  constructor
  · intro code out h
    simp [runPipeline, runLoop, clone_or_fetch, h]
  · intro h
    simp [runPipeline, runLoop, clone_or_fetch, h]

/-- Witness for the amended C7 at a concrete input (non-zero exit). -/
theorem C7_amended_sync_failure_aborts_witness :
    ({ entry := FsEntry.dir, syncRes := RunResult.calledProcessError 128 " denied ".toList,
       scrapeRes := RunResult.success [] } : RepoEnv).syncRes
        = RunResult.calledProcessError 128 " denied ".toList ∧
      runPipeline
          [({ name := "proj".toList, url := "u".toList, path := none,
              commits := [] },
            { entry := FsEntry.dir,
              syncRes := RunResult.calledProcessError 128 " denied ".toList,
              scrapeRes := RunResult.success [] })]
          none none none none "/home".toList
        = (Termination.exitedWith 11 (fetch_cmd "._repos/proj".toList)
             "denied".toList,
           [Event.sync "proj".toList],
           [{ name := "proj".toList, url := "u".toList, path := none,
              commits := [] }]) :=
  ⟨rfl,
   by
    have h := (C7_amended_sync_failure_aborts
      { name := "proj".toList, url := "u".toList, path := none, commits := [] }
      { entry := FsEntry.dir,
        syncRes := RunResult.calledProcessError 128 " denied ".toList,
        scrapeRes := RunResult.success [] }
      [] none none none none "/home".toList).1 128 " denied ".toList rfl
    simpa [sync_cmd, fetch_cmd, pyStrip] using h⟩

/-- C8, counterexample: two repositories, the first history query fails with
a non-zero exit status; the process does not abort — it prints the
diagnostic, continues with the second repository, and completes normally
(exit status zero). -/
theorem C8_counterexample :
    (runPipeline
        [({ name := "a".toList, url := "ua".toList, path := none,
            commits := [] },
          { entry := FsEntry.dir, syncRes := RunResult.success [],
            scrapeRes := RunResult.calledProcessError 128 "boom".toList }),
         ({ name := "b".toList, url := "ub".toList, path := none,
            commits := [] },
          { entry := FsEntry.dir, syncRes := RunResult.success [],
            scrapeRes := RunResult.success "1a2b fix: one".toList })]
        none none none none "/home".toList).1
      = Termination.completed ∧
    (runPipeline
        [({ name := "a".toList, url := "ua".toList, path := none,
            commits := [] },
          { entry := FsEntry.dir, syncRes := RunResult.success [],
            scrapeRes := RunResult.calledProcessError 128 "boom".toList }),
         ({ name := "b".toList, url := "ub".toList, path := none,
            commits := [] },
          { entry := FsEntry.dir, syncRes := RunResult.success [],
            scrapeRes := RunResult.success "1a2b fix: one".toList })]
        none none none none "/home".toList).2.1
      = [Event.sync "a".toList, Event.query "a".toList,
         Event.errorPrint "a".toList, Event.sync "b".toList,
         Event.query "b".toList] := by decide

/-- C8, amended: when a history query fails with a non-zero exit status the
script prints the failing command and its captured output and continues
with the next repository; the failed repository keeps an empty commit list
and the run is not aborted. -/
theorem C8_amended_scrape_failure_continues (repo : Repo) (env : RepoEnv)
    (rest : List (Repo × RepoEnv)) (start_tag end_tag : Option Str)
    (match_list excl_list : Option (List RePattern)) (pwd o out : Str)
    (code : Nat)
    (hck : check_tag_semantics start_tag end_tag = false)
    (hsync : env.syncRes = RunResult.success o)
    (hscrape : env.scrapeRes = RunResult.calledProcessError code out) :
    runPipeline ((repo, env) :: rest) start_tag end_tag match_list excl_list
        pwd
      = ((runPipeline rest start_tag end_tag match_list excl_list pwd).1,
         Event.sync repo.name :: Event.query repo.name ::
           Event.errorPrint repo.name ::
           (runPipeline rest start_tag end_tag match_list excl_list pwd).2.1,
         { repo with path := some (WORKDIR ++ repo.name), commits := [] } ::
           (runPipeline rest start_tag end_tag match_list excl_list pwd).2.2) := by
  have hpass : ∀ l, runPipeline l start_tag end_tag match_list excl_list pwd
      = runLoop start_tag end_tag match_list excl_list pwd l := by
    intro l
    simp only [runPipeline]
    split
    · simp [hck]
    · rfl
  rw [hpass, hpass]
  simp [runLoop, clone_or_fetch, scrape_commits, hck, hsync, hscrape]

/-- Witness for the amended C8 at a concrete input. -/
theorem C8_amended_scrape_failure_continues_witness :
    check_tag_semantics none none = false ∧
      runPipeline
          [({ name := "a".toList, url := "ua".toList, path := none,
              commits := [] },
            { entry := FsEntry.dir, syncRes := RunResult.success [],
              scrapeRes := RunResult.calledProcessError 128 "boom".toList })]
          none none none none "/home".toList
        = (Termination.completed,
           [Event.sync "a".toList, Event.query "a".toList,
            Event.errorPrint "a".toList],
           [{ name := "a".toList, url := "ua".toList,
              path := some "._repos/a".toList, commits := [] }]) :=
  ⟨rfl,
   by
    have h := C8_amended_scrape_failure_continues
      { name := "a".toList, url := "ua".toList, path := none, commits := [] }
      { entry := FsEntry.dir, syncRes := RunResult.success [],
        scrapeRes := RunResult.calledProcessError 128 "boom".toList }
      [] none none none none "/home".toList [] "boom".toList 128 rfl rfl rfl
    simpa [runPipeline, runLoop, WORKDIR] using h⟩

/-- C4, counterexample: `replace(".git", "")` removes every occurrence of
the substring `.git` from the last path segment, not only a trailing
suffix: for `.../proj.git.git` the code derives `proj` while stripping only
the trailing suffix would give `proj.git`. -/
theorem C4_counterexample :
    derive_name "https://example.com/group/proj.git.git".toList
        = "proj".toList ∧
      specNameTrailingOnly "https://example.com/group/proj.git.git".toList
        = "proj.git".toList ∧
      derive_name "https://example.com/group/proj.git.git".toList
        ≠ specNameTrailingOnly
            "https://example.com/group/proj.git.git".toList := by decide

/-- C4, amended: the derived name is the last `/`-separated segment with
every occurrence of the substring `.git` removed (left to right,
non-overlapping); for URLs whose last segment contains `.git` at most as a
trailing suffix — the common case, covering both spec examples — this
coincides with stripping the trailing suffix, as the claim states. -/
theorem C4_amended_name_derivation (repo_url : Str)
    (h : ¬ dotGit <:+: (lastSegment repo_url).dropLast) :
    derive_name repo_url = specNameTrailingOnly repo_url := by
  unfold derive_name specNameTrailingOnly
  exact replaceAll_trailing_only dotGit (by decide) _ h

/-- Witness for the amended C4 at the two spec examples. -/
theorem C4_amended_name_derivation_witness :
    (¬ dotGit <:+:
        (lastSegment "https://example.com/group/proj.git".toList).dropLast) ∧
      derive_name "https://example.com/group/proj.git".toList
        = specNameTrailingOnly "https://example.com/group/proj.git".toList ∧
      derive_name "https://example.com/group/proj".toList
        = specNameTrailingOnly "https://example.com/group/proj".toList :=
  ⟨by decide,
   C4_amended_name_derivation "https://example.com/group/proj.git".toList
     (by decide),
   C4_amended_name_derivation "https://example.com/group/proj".toList
     (by decide)⟩

/-- C5, counterexample: the scraper computes the subject as
`' '.join(line.split()[1:])`, which does not retain the remainder after the
revision identifier unchanged — runs of whitespace inside the subject are
collapsed to single spaces. -/
theorem C5_counterexample :
    joinSp ((splitWs "1a2b fix:  double".toList).drop 1)
        = "fix: double".toList ∧
      specSubject "1a2b fix:  double".toList = "fix:  double".toList ∧
      joinSp ((splitWs "1a2b fix:  double".toList).drop 1)
        ≠ specSubject "1a2b fix:  double".toList := by decide

/-- C5, amended: for each history line the scraper keeps the
whitespace-delimited fields after the first (the revision identifier)
joined by single spaces — equal to the verbatim remainder exactly when the
line is already single-space normalized; subjects that come out empty are
discarded, each kept subject passed the filters, and the order of the
resulting commits list mirrors the order of the input lines (the loop is a
plain map-then-filter). -/
theorem C5_amended_line_normalization :
    (∀ (lines : List Str) (match_list excl_list : Option (List RePattern)),
      collectCommits lines match_list excl_list
        = (lines.map (fun line => joinSp ((splitWs line).drop 1))).filter
            (fun subj => subj != [] &&
              «matches» subj match_list excl_list)) ∧
    (∀ line : Str, line = joinSp (splitWs line) →
      joinSp ((splitWs line).drop 1) = specSubject line) := by
  constructor
  · intro lines match_list excl_list
    rw [collectCommits, collect_go]
    rfl
  · intro line hline
    conv_rhs => rw [hline]
    exact (specSubject_joinSp (splitWs line)
      (splitWsAux_fields line [] (by simp))).symm

/-- Witness for the amended C5 at concrete inputs. -/
theorem C5_amended_line_normalization_witness :
    ("5e6f fix: one".toList = joinSp (splitWs "5e6f fix: one".toList)) ∧
      joinSp ((splitWs "5e6f fix: one".toList).drop 1)
        = specSubject "5e6f fix: one".toList ∧
      collectCommits ["5e6f fix: one".toList, "7a8b ".toList] none none
        = ["fix: one".toList] :=
  ⟨by decide,
   C5_amended_line_normalization.2 "5e6f fix: one".toList (by decide),
   by decide⟩

end Chang
